import Mathlib

/-!
Shallow embedding of `rmwspy/spectralsim.py` (class `spectral_random_field`).

N-dimensional numpy arrays are modelled as a shape (list of extents) together
with a total data function on integer coordinate lists; an array's meaningful
entries are those at coordinates that are elementwise below the shape.

External collaborators (not part of this file's source, see the spec):
  * the covariance-model library `covariancefunction` is consumed through two
    pure functions, `find_maximum_range : kappa -> rat` and an elementwise
    covariance evaluation `cg : kappa -> real -> real`, where `kappa` is the
    opaque type of covariance-model specifications;
  * the Fourier backend: `np.fft.fftn` and `np.fft.ifftn` are embedded as the
    concrete unnormalized forward DFT and the 1/n-normalized inverse DFT on
    these arrays (numpy's documented convention);
  * the random-number collaborator `np.random.default_rng(seed)`: a seeded
    generator is a deterministic stream, modelled by a function
    `normal : seed -> position -> real`; a generator constructed with
    `seed = None` is seeded from system entropy, modelled by an extra
    `entropy` argument that stands for the process entropy actually drawn.
-/

namespace Spectralsim

/-- Multidimensional array: a shape and a total data function on coordinates. -/
structure NDArray (α : Type) where
  shape : List ℕ
  data : List ℕ → α

/-- `np.prod` of a shape: the element count of an array of this shape. -/
def npointsOf (s : List ℕ) : ℕ := s.prod

/-- All valid coordinates of a shape, in row-major order (`np.ndindex`). -/
def indicesOf : List ℕ → List (List ℕ)
  | [] => [[]]
  | n :: rest => (List.range n).flatMap (fun i => (indicesOf rest).map (i :: ·))

/-- Row-major flat position of a coordinate within a shape. -/
def flatIdx : List ℕ → List ℕ → ℕ
  | [], _ => 0
  | _ :: rest, c => c.headD 0 * npointsOf rest + flatIdx rest c.tail

/-- Elementwise map over an array. -/
def mapArr {α β : Type} (f : α → β) (A : NDArray α) : NDArray β :=
  ⟨A.shape, fun c => f (A.data c)⟩

/-- The DFT phase exponent `sum_l k_l j_l / s_l` for shape `s`. -/
noncomputable def dftPhase (s k j : List ℕ) : ℝ :=
  ∑ l ∈ Finset.range s.length,
    ((k.getD l 0 : ℝ) * (j.getD l 0 : ℝ)) / (s.getD l 1 : ℝ)

/-- `np.fft.fftn`: unnormalized forward N-dimensional DFT. -/
noncomputable def fftn (A : NDArray ℂ) : NDArray ℂ :=
  ⟨A.shape, fun k =>
    ((indicesOf A.shape).map (fun j =>
      A.data j * Complex.exp (-2 * Real.pi * Complex.I * dftPhase A.shape k j))).sum⟩

/-- `np.fft.ifftn`: inverse N-dimensional DFT, normalized by the element count
(numpy's default convention). -/
noncomputable def ifftn (A : NDArray ℂ) : NDArray ℂ :=
  ⟨A.shape, fun k =>
    (((indicesOf A.shape).map (fun j =>
      A.data j * Complex.exp (2 * Real.pi * Complex.I * dftPhase A.shape k j))).sum)
      / (npointsOf A.shape : ℂ)⟩

/-- `np.int(np.ceil(t / 8.) * 8.)`: round a (rational) target extent up to the
nearest multiple of 8 greater than or equal to it. -/
def roundUp8 (t : ℚ) : ℕ := (8 * ⌈t / 8⌉).toNat

/-- The `cutoffs` list built in `__init__` for non-periodic output: for each
requested extent `dim`, the rounded padded extent minus `dim`. -/
def cutoffList (ds : List ℕ) (r : ℚ) : List ℕ :=
  ds.map (fun (dim : ℕ) => roundUp8 ((dim : ℚ) + r) - dim)

/-- Wrap-around (toroidal) distance to the origin along one axis of extent `p`:
`np.min((grid, domainsize - grid))` at a single coordinate. -/
def wrapDist (p c : ℕ) : ℕ := min c (p - c)

/-- The lag-distance array `self.h` on the padded grid: Euclidean norm across
axes of the wrapped coordinate grid. -/
noncomputable def lagArray (padded : List ℕ) : NDArray ℝ :=
  ⟨padded, fun c =>
    Real.sqrt (∑ i ∈ Finset.range padded.length,
      ((wrapDist (padded.getD i 0) (c.getD i 0) : ℝ)) ^ 2)⟩

/-- The covariance array `self.Q = covfun.Covariogram(self.h, covmod)`:
elementwise evaluation of the covariance model on the lag array. -/
noncomputable def covArr {κ : Type} (cg : κ → ℝ → ℝ) (covmod : κ)
    (padded : List ℕ) : NDArray ℝ :=
  ⟨padded, fun c => cg covmod ((lagArray padded).data c)⟩

/-- `self.FFTQ = np.abs(np.fft.fftn(self.Q))`. -/
noncomputable def fftqArr {κ : Type} (cg : κ → ℝ → ℝ) (covmod : κ)
    (padded : List ℕ) : NDArray ℝ :=
  mapArr Complex.abs (fftn (mapArr Complex.ofReal (covArr cg covmod padded)))

/-- `self.FFTQ / self.npoints`: the argument array of the square root. -/
noncomputable def sqrtArgArr {κ : Type} (cg : κ → ℝ → ℝ) (covmod : κ)
    (padded : List ℕ) : NDArray ℝ :=
  mapArr (fun x => x / (npointsOf padded : ℝ)) (fftqArr cg covmod padded)

/-- `self.sqrtFFTQ = np.sqrt(self.FFTQ / self.npoints)`. -/
noncomputable def sqrtFFTQArr {κ : Type} (cg : κ → ℝ → ℝ) (covmod : κ)
    (padded : List ℕ) : NDArray ℝ :=
  mapArr Real.sqrt (sqrtArgArr cg covmod padded)

/-- The stored `self.domainsize` after the reshape loop: the padded extents
carried in an array of shape `(N, 1, ..., 1)` with one trailing singleton axis
per dimension. -/
def storedDS (padded : List ℕ) : NDArray ℕ :=
  ⟨padded.length :: List.replicate padded.length 1,
   fun c => padded.getD (c.headD 0) 0⟩

/-- `np.squeeze` specialised to the arrays the constructor stores in
`self.domainsize`: all axes beyond the first are singletons, so squeezing
recovers the vector carried along axis 0 (for a 1-dimensional domain the numpy
result is 0-dimensional, but subsequent broadcasting against `cutoff` makes it
act as this one-entry vector). -/
def squeezeVec (A : NDArray ℕ) : List ℕ :=
  (List.range (A.shape.headD 0)).map
    (fun i => A.data (i :: List.replicate (A.shape.length - 1) 0))

/-- Generator state: the attributes of `spectral_random_field` (the 3-D
plotting convenience `self.xyz` is presentation-only and excluded, as in the
spec). `rngSeed`/`rngPos` model `self.rng`, a seeded deterministic stream and
its current position. -/
structure SRF (κ : Type) where
  counter : ℕ
  periodic : Bool
  pyfftwmode : Bool
  seed : Option ℕ
  covmod : κ
  cutoff : List ℕ
  domainsize : NDArray ℕ
  ndim : ℕ
  npoints : ℕ
  h : NDArray ℝ
  Q : NDArray ℝ
  FFTQ : NDArray ℝ
  sqrtFFTQ : NDArray ℝ
  rngSeed : ℕ
  rngPos : ℕ
  Y : NDArray ℝ

/-- A standard-normal draw `self.rng.standard_normal(size = s)` starting at
stream position `pos`: fills the array in row-major order and consumes
`npointsOf s` stream values. -/
def drawNormal (normal : ℕ → ℕ → ℝ) (sd pos : ℕ) (s : List ℕ) : NDArray ℝ :=
  ⟨s, fun c => normal sd (pos + flatIdx s c)⟩

/-- Crop to the first `sizes i` entries along each axis `i` (the
`Y[tuple(gridslice)]` step followed by the no-op `reshape`). -/
def crop {α : Type} (tgt : List ℕ) (A : NDArray α) : NDArray α :=
  ⟨tgt, A.data⟩

/-- The crop target recomputed on every synthesis call:
`self.domainsize.squeeze() - self.cutoff` (elementwise, with numpy
broadcasting). -/
def cropSizes {κ : Type} (g : SRF κ) : List ℕ :=
  List.zipWith (fun a b => a - b) (squeezeVec g.domainsize) g.cutoff

/-- `np.concatenate((Y1[np.newaxis], Y2[np.newaxis]), axis=0)`. -/
def stack2 (A B : NDArray ℝ) : NDArray ℝ :=
  ⟨2 :: A.shape, fun c => if c.headD 0 = 0 then A.data c.tail else B.data c.tail⟩

/-- Field `k` of a stacked pair (`Y[k]`). -/
def fieldOf (k : ℕ) (A : NDArray ℝ) : NDArray ℝ :=
  ⟨A.shape.tail, fun c => A.data (k :: c)⟩

/-- `simnew`: draws two fresh standard-normal arrays, shapes the complex noise
by `sqrtFFTQ`, inverse-transforms, scales by `npoints`, and (when
non-periodic) crops both real and imaginary fields; stores and returns
the stacked pair of fields.  The `pyfftwmode` branch applies the same
transform contract and is embedded identically. -/
noncomputable def simnew {κ : Type} (normal : ℕ → ℕ → ℝ) (g : SRF κ) :
    NDArray ℝ × SRF κ :=
  let s := g.sqrtFFTQ.shape
  let n := npointsOf s
  let realArr := drawNormal normal g.rngSeed g.rngPos s
  let imagArr := drawNormal normal g.rngSeed (g.rngPos + n) s
  let rand : NDArray ℂ :=
    ⟨s, fun c => ((realArr.data c : ℂ) + Complex.I * (imagArr.data c : ℂ))
        * (g.sqrtFFTQ.data c : ℂ)⟩
  let Y1 := mapArr (fun z => z.re * (g.npoints : ℝ)) (ifftn rand)
  let Y2 := mapArr (fun z => z.im * (g.npoints : ℝ)) (ifftn rand)
  let Y1c := if g.periodic then Y1 else crop (cropSizes g) Y1
  let Y2c := if g.periodic then Y2 else crop (cropSizes g) Y2
  let Yst := stack2 Y1c Y2c
  (Yst, { g with counter := g.counter + 1, rngPos := g.rngPos + n + n, Y := Yst })

/-- `simnew_real`: same draws and transform as `simnew`, but only the real
part is kept, cropped when non-periodic, stored and returned. -/
noncomputable def simnew_real {κ : Type} (normal : ℕ → ℕ → ℝ) (g : SRF κ) :
    NDArray ℝ × SRF κ :=
  let s := g.sqrtFFTQ.shape
  let n := npointsOf s
  let realArr := drawNormal normal g.rngSeed g.rngPos s
  let imagArr := drawNormal normal g.rngSeed (g.rngPos + n) s
  let rand : NDArray ℂ :=
    ⟨s, fun c => ((realArr.data c : ℂ) + Complex.I * (imagArr.data c : ℂ))
        * (g.sqrtFFTQ.data c : ℂ)⟩
  let Y1 := mapArr (fun z => z.re * (g.npoints : ℝ)) (ifftn rand)
  let Y1c := if g.periodic then Y1 else crop (cropSizes g) Y1
  (Y1c, { g with counter := g.counter + 1, rngPos := g.rngPos + n + n, Y := Y1c })

/-- The `cutoff` vector as `__init__` computes it (a scalar `0`, broadcast as
the zero vector, when periodic). -/
def cutoffOf {κ : Type} (fmr : κ → ℚ) (ds : List ℕ) (covmod : κ)
    (periodic : Bool) : List ℕ :=
  if periodic then List.replicate ds.length 0 else cutoffList ds (fmr covmod)

/-- The padded grid shape `np.array(domainsize) + self.cutoff`. -/
def paddedOf {κ : Type} (fmr : κ → ℚ) (ds : List ℕ) (covmod : κ)
    (periodic : Bool) : List ℕ :=
  List.zipWith (fun a b => a + b) ds (cutoffOf fmr ds covmod periodic)

/-- The generator state built by `__init__` just before its final
`self.Y = self.simnew()` line.  `Y` is a placeholder for the still-unset
attribute; the first `simnew` call overwrites it. -/
noncomputable def mkSRF0 {κ : Type} (fmr : κ → ℚ) (cg : κ → ℝ → ℝ)
    (ds : List ℕ) (covmod : κ) (periodic pyfftwmode : Bool)
    (seed : Option ℕ) (entropy : ℕ) : SRF κ :=
  let padded := paddedOf fmr ds covmod periodic
  { counter := 0
    periodic := periodic
    pyfftwmode := pyfftwmode
    seed := seed
    covmod := covmod
    cutoff := cutoffOf fmr ds covmod periodic
    domainsize := storedDS padded
    ndim := padded.length
    npoints := npointsOf padded
    h := lagArray padded
    Q := covArr cg covmod padded
    FFTQ := fftqArr cg covmod padded
    sqrtFFTQ := sqrtFFTQArr cg covmod padded
    rngSeed := seed.getD entropy
    rngPos := 0
    Y := ⟨[], fun _ => 0⟩ }

/-- Full construction of `spectral_random_field`: build the derived arrays,
seed the stream, and perform the first dual-field draw. -/
noncomputable def mkSRF {κ : Type} (normal : ℕ → ℕ → ℝ) (fmr : κ → ℚ)
    (cg : κ → ℝ → ℝ) (ds : List ℕ) (covmod : κ) (periodic pyfftwmode : Bool)
    (seed : Option ℕ) (entropy : ℕ) : SRF κ :=
  (simnew normal (mkSRF0 fmr cg ds covmod periodic pyfftwmode seed entropy)).2

/-- A synthesis request: dual-field (`simnew`) or single-field
(`simnew_real`). -/
inductive Op
  | pair
  | one

/-- Run one synthesis call. -/
noncomputable def runOp {κ : Type} (normal : ℕ → ℕ → ℝ) (g : SRF κ) :
    Op → NDArray ℝ × SRF κ
  | Op.pair => simnew normal g
  | Op.one => simnew_real normal g

/-- Run a sequence of synthesis calls, collecting the returned realizations. -/
noncomputable def runOps {κ : Type} (normal : ℕ → ℕ → ℝ) (g : SRF κ) :
    List Op → List (NDArray ℝ) × SRF κ
  | [] => ([], g)
  | op :: rest =>
    let r := runOp normal g op
    let rs := runOps normal r.2 rest
    (r.1 :: rs.1, rs.2)

/-- A coordinate is on the grid of a shape: same rank and elementwise below
the extents. -/
def validIdx (c s : List ℕ) : Prop :=
  c.length = s.length ∧ ∀ i, i < s.length → c.getD i 0 < s.getD i 0

instance (c s : List ℕ) : Decidable (validIdx c s) :=
  inferInstanceAs (Decidable (c.length = s.length
    ∧ ∀ i, i < s.length → c.getD i 0 < s.getD i 0))

lemma range_map_getD : ∀ l : List ℕ,
    (List.range l.length).map (fun i => l.getD i 0) = l
  | [] => rfl
  | a :: tl => by
    simp only [List.length_cons, List.range_succ_eq_map, List.map_cons,
      List.map_map, List.getD_cons_zero, List.cons.injEq, true_and]
    have : ((fun i => (a :: tl).getD i 0) ∘ Nat.succ) = fun i => tl.getD i 0 := by
      funext i
      simp [Function.comp, List.getD_cons_succ]
    rw [this, range_map_getD tl]

lemma squeezeVec_storedDS (padded : List ℕ) :
    squeezeVec (storedDS padded) = padded := by
  simp only [squeezeVec, storedDS, List.headD_cons, List.length_cons,
    List.length_replicate, Nat.add_sub_cancel]
  exact range_map_getD padded

lemma zipWith_add_replicate_zero : ∀ l : List ℕ,
    List.zipWith (fun a b => a + b) l (List.replicate l.length 0) = l
  | [] => rfl
  | a :: tl => by
    rw [List.length_cons, List.replicate_succ, List.zipWith_cons_cons,
      zipWith_add_replicate_zero tl, Nat.add_zero]

lemma zipWith_sub_zipWith_add : ∀ (l c : List ℕ), c.length = l.length →
    List.zipWith (fun a b => a - b)
      (List.zipWith (fun a b => a + b) l c) c = l
  | [], [], _ => rfl
  | [], _ :: _, h => by simp at h
  | _ :: _, [], h => by simp at h
  | a :: tl, b :: tc, h => by
    simp only [List.zipWith_cons_cons, Nat.add_sub_cancel, List.cons.injEq,
      true_and]
    exact zipWith_sub_zipWith_add tl tc (by simpa using h)

lemma cutoffOf_length {κ : Type} (fmr : κ → ℚ) (ds : List ℕ) (covmod : κ)
    (periodic : Bool) : (cutoffOf fmr ds covmod periodic).length = ds.length := by
  cases periodic <;> simp [cutoffOf, cutoffList]

lemma paddedOf_length {κ : Type} (fmr : κ → ℚ) (ds : List ℕ) (covmod : κ)
    (periodic : Bool) : (paddedOf fmr ds covmod periodic).length = ds.length := by
  simp [paddedOf, cutoffOf_length]

lemma paddedOf_periodic {κ : Type} (fmr : κ → ℚ) (ds : List ℕ) (covmod : κ) :
    paddedOf fmr ds covmod true = ds := by
  simpa [paddedOf, cutoffOf] using zipWith_add_replicate_zero ds

lemma getD_zipWith (f : ℕ → ℕ → ℕ) : ∀ (l₁ l₂ : List ℕ) (i : ℕ),
    i < l₁.length → i < l₂.length →
    (List.zipWith f l₁ l₂).getD i 0 = f (l₁.getD i 0) (l₂.getD i 0)
  | [], _, i, h, _ => by simp at h
  | _ :: _, [], i, _, h => by simp at h
  | a :: t₁, b :: t₂, 0, _, _ => rfl
  | a :: t₁, b :: t₂, i + 1, h₁, h₂ => by
    simpa using getD_zipWith f t₁ t₂ i (by simpa using h₁) (by simpa using h₂)

lemma getD_map_nat (f : ℕ → ℕ) : ∀ (l : List ℕ) (i : ℕ), i < l.length →
    (l.map f).getD i 0 = f (l.getD i 0)
  | [], i, h => by simp at h
  | a :: tl, 0, _ => rfl
  | a :: tl, i + 1, h => by
    simpa using getD_map_nat f tl i (by simpa using h)

lemma mkSRF0_cutoff {κ : Type} (fmr : κ → ℚ) (cg : κ → ℝ → ℝ) (ds : List ℕ)
    (covmod : κ) (periodic pyfftwmode : Bool) (seed : Option ℕ) (entropy : ℕ) :
    (mkSRF0 fmr cg ds covmod periodic pyfftwmode seed entropy).cutoff
      = cutoffOf fmr ds covmod periodic := rfl

lemma cropSizes_of_fields {κ : Type} (g : SRF κ) (fmr : κ → ℚ) (ds : List ℕ)
    (covmod : κ) (periodic : Bool)
    (hd : g.domainsize = storedDS (paddedOf fmr ds covmod periodic))
    (hc : g.cutoff = cutoffOf fmr ds covmod periodic) :
    cropSizes g = ds := by
  rw [cropSizes, hd, hc, squeezeVec_storedDS, paddedOf]
  exact zipWith_sub_zipWith_add ds _ (cutoffOf_length fmr ds covmod periodic)

lemma simnew_snd {κ : Type} (normal : ℕ → ℕ → ℝ) (g : SRF κ) :
    (simnew normal g).2 =
      { g with counter := g.counter + 1,
               rngPos := g.rngPos + npointsOf g.sqrtFFTQ.shape
                           + npointsOf g.sqrtFFTQ.shape,
               Y := (simnew normal g).1 } := rfl

lemma simnew_real_snd {κ : Type} (normal : ℕ → ℕ → ℝ) (g : SRF κ) :
    (simnew_real normal g).2 =
      { g with counter := g.counter + 1,
               rngPos := g.rngPos + npointsOf g.sqrtFFTQ.shape
                           + npointsOf g.sqrtFFTQ.shape,
               Y := (simnew_real normal g).1 } := rfl

/-- The constructed-at-init fields are untouched by any synthesis call. -/
lemma runOp_frame {κ : Type} (normal : ℕ → ℕ → ℝ) (g : SRF κ) (op : Op) :
    (runOp normal g op).2.sqrtFFTQ = g.sqrtFFTQ
    ∧ (runOp normal g op).2.domainsize = g.domainsize
    ∧ (runOp normal g op).2.cutoff = g.cutoff
    ∧ (runOp normal g op).2.periodic = g.periodic
    ∧ (runOp normal g op).2.npoints = g.npoints
    ∧ (runOp normal g op).2.rngSeed = g.rngSeed := by
  cases op <;> exact ⟨rfl, rfl, rfl, rfl, rfl, rfl⟩

lemma runOps_frame {κ : Type} (normal : ℕ → ℕ → ℝ) :
    ∀ (ops : List Op) (g : SRF κ),
    (runOps normal g ops).2.sqrtFFTQ = g.sqrtFFTQ
    ∧ (runOps normal g ops).2.domainsize = g.domainsize
    ∧ (runOps normal g ops).2.cutoff = g.cutoff
    ∧ (runOps normal g ops).2.periodic = g.periodic
    ∧ (runOps normal g ops).2.npoints = g.npoints
    ∧ (runOps normal g ops).2.rngSeed = g.rngSeed
  | [], g => ⟨rfl, rfl, rfl, rfl, rfl, rfl⟩
  | op :: rest, g => by
    obtain ⟨h1, h2, h3, h4, h5, h6⟩ := runOps_frame normal rest (runOp normal g op).2
    obtain ⟨k1, k2, k3, k4, k5, k6⟩ := runOp_frame normal g op
    exact ⟨h1.trans k1, h2.trans k2, h3.trans k3, h4.trans k4,
           h5.trans k5, h6.trans k6⟩

lemma simnew_fst_shape {κ : Type} (normal : ℕ → ℕ → ℝ) (g : SRF κ) :
    (simnew normal g).1.shape =
      2 :: (if g.periodic then g.sqrtFFTQ.shape else cropSizes g) := by
  cases hp : g.periodic <;> simp [simnew, stack2, crop, mapArr, ifftn, hp]

lemma simnew_real_fst_shape {κ : Type} (normal : ℕ → ℕ → ℝ) (g : SRF κ) :
    (simnew_real normal g).1.shape =
      (if g.periodic then g.sqrtFFTQ.shape else cropSizes g) := by
  cases hp : g.periodic <;> simp [simnew_real, crop, mapArr, ifftn, hp]

lemma roundUp8_eq (t : ℚ) (ht : 0 ≤ t) :
    (roundUp8 t : ℤ) = 8 * ⌈t / 8⌉ := by
  have hc : (0 : ℤ) ≤ ⌈t / 8⌉ := Int.ceil_nonneg (by positivity)
  rw [roundUp8]
  omega

lemma roundUp8_ge (t : ℚ) (ht : 0 ≤ t) : t ≤ (roundUp8 t : ℚ) := by
  have h8 : (8 : ℚ) * ⌈t / 8⌉ = ((8 * ⌈t / 8⌉ : ℤ) : ℚ) := by push_cast; ring
  have hle : t / 8 ≤ (⌈t / 8⌉ : ℚ) := Int.le_ceil _
  have : t ≤ (8 : ℚ) * ⌈t / 8⌉ := by linarith
  rw [h8] at this
  calc t ≤ ((8 * ⌈t / 8⌉ : ℤ) : ℚ) := this
    _ = ((roundUp8 t : ℤ) : ℚ) := by rw [roundUp8_eq t ht]
    _ = (roundUp8 t : ℚ) := by push_cast; ring

lemma roundUp8_dvd (t : ℚ) (ht : 0 ≤ t) : 8 ∣ roundUp8 t := by
  have hc : (0 : ℤ) ≤ ⌈t / 8⌉ := Int.ceil_nonneg (by positivity)
  rw [roundUp8]
  omega

lemma roundUp8_ge_nat (d : ℕ) (r : ℚ) (hr : 0 ≤ r) :
    d ≤ roundUp8 ((d : ℚ) + r) := by
  have h1 : (d : ℚ) ≤ (roundUp8 ((d : ℚ) + r) : ℚ) :=
    le_trans (by linarith) (roundUp8_ge ((d : ℚ) + r) (by positivity))
  exact_mod_cast h1

/-- Claim C5: for every periodic configuration and any covariance model, the
cutoff is the zero vector, the stored padded size equals the requested domain
size, and the effective-range lookup is never consulted: the constructed
generator is invariant under replacing the range collaborator by any other. -/
theorem C5_periodic_no_padding {κ : Type} (normal : ℕ → ℕ → ℝ) (fmr : κ → ℚ)
    (cg : κ → ℝ → ℝ) (ds : List ℕ) (covmod : κ) (pyfftwmode : Bool)
    (seed : Option ℕ) (entropy : ℕ) :
    (mkSRF normal fmr cg ds covmod true pyfftwmode seed entropy).cutoff
      = List.replicate ds.length 0
    ∧ squeezeVec
        (mkSRF normal fmr cg ds covmod true pyfftwmode seed entropy).domainsize
      = ds
    ∧ ∀ fmr2 : κ → ℚ,
        mkSRF normal fmr cg ds covmod true pyfftwmode seed entropy
          = mkSRF normal fmr2 cg ds covmod true pyfftwmode seed entropy := by
  refine ⟨rfl, ?_, fun fmr2 => rfl⟩
  show squeezeVec (storedDS (paddedOf fmr ds covmod true)) = ds
  rw [squeezeVec_storedDS, paddedOf_periodic]

/-- Claim C4: non-periodic padding arithmetic.  Each cutoff entry is the
requested extent plus the model range, rounded up to a multiple of 8, minus
the requested extent; the padded extent is the requested extent plus the
cutoff, is a multiple of 8, and is at least the requested extent plus the
effective range. -/
theorem C4_padding_arithmetic {κ : Type} (normal : ℕ → ℕ → ℝ) (fmr : κ → ℚ)
    (cg : κ → ℝ → ℝ) (ds : List ℕ) (covmod : κ) (pyfftwmode : Bool)
    (seed : Option ℕ) (entropy : ℕ)
    (hr : 0 ≤ fmr covmod) (hpos : ∀ x ∈ ds, 0 < x)
    (i : ℕ) (hi : i < ds.length) :
    (mkSRF normal fmr cg ds covmod false pyfftwmode seed entropy).cutoff.getD i 0
      = roundUp8 ((ds.getD i 0 : ℚ) + fmr covmod) - ds.getD i 0
    ∧ (squeezeVec (mkSRF normal fmr cg ds covmod false pyfftwmode
          seed entropy).domainsize).getD i 0
      = ds.getD i 0
        + (mkSRF normal fmr cg ds covmod false pyfftwmode
            seed entropy).cutoff.getD i 0
    ∧ 8 ∣ (squeezeVec (mkSRF normal fmr cg ds covmod false pyfftwmode
          seed entropy).domainsize).getD i 0
    ∧ (ds.getD i 0 : ℚ) + fmr covmod
      ≤ ((squeezeVec (mkSRF normal fmr cg ds covmod false pyfftwmode
          seed entropy).domainsize).getD i 0 : ℚ) := by
  have hcut : (mkSRF normal fmr cg ds covmod false pyfftwmode
      seed entropy).cutoff = cutoffList ds (fmr covmod) := rfl
  have hpad : squeezeVec (mkSRF normal fmr cg ds covmod false pyfftwmode
      seed entropy).domainsize
      = List.zipWith (fun a b => a + b) ds (cutoffList ds (fmr covmod)) := by
    show squeezeVec (storedDS (paddedOf fmr ds covmod false))
      = List.zipWith (fun a b => a + b) ds (cutoffList ds (fmr covmod))
    rw [squeezeVec_storedDS]
    rfl
  have hlen : (cutoffList ds (fmr covmod)).length = ds.length := by
    simp [cutoffList]
  have hc1 : (mkSRF normal fmr cg ds covmod false pyfftwmode
      seed entropy).cutoff.getD i 0
      = roundUp8 ((ds.getD i 0 : ℚ) + fmr covmod) - ds.getD i 0 := by
    rw [hcut, cutoffList]
    exact getD_map_nat _ ds i hi
  have hc2 : (squeezeVec (mkSRF normal fmr cg ds covmod false pyfftwmode
      seed entropy).domainsize).getD i 0
      = ds.getD i 0 + (mkSRF normal fmr cg ds covmod false pyfftwmode
          seed entropy).cutoff.getD i 0 := by
    rw [hpad, hcut]
    exact getD_zipWith _ ds _ i hi (by rw [hlen]; exact hi)
  have hdm : ds.getD i 0 ≤ roundUp8 ((ds.getD i 0 : ℚ) + fmr covmod) :=
    roundUp8_ge_nat (ds.getD i 0) (fmr covmod) hr
  have hm8 : (squeezeVec (mkSRF normal fmr cg ds covmod false pyfftwmode
      seed entropy).domainsize).getD i 0
      = roundUp8 ((ds.getD i 0 : ℚ) + fmr covmod) := by
    rw [hc2, hc1]
    omega
  refine ⟨hc1, hc2, ?_, ?_⟩
  · rw [hm8]
    exact roundUp8_dvd _ (by positivity)
  · rw [hm8]
    exact roundUp8_ge _ (by positivity)

/-- Claim C3: the lag-distance array has the padded shape and, at every grid
coordinate, equals the Euclidean norm across axes of the wrap-around
distances to the origin. -/
theorem C3_lag_distance {κ : Type} (normal : ℕ → ℕ → ℝ) (fmr : κ → ℚ)
    (cg : κ → ℝ → ℝ) (ds : List ℕ) (covmod : κ) (periodic pyfftwmode : Bool)
    (seed : Option ℕ) (entropy : ℕ) (c : List ℕ)
    (hc : validIdx c (squeezeVec (mkSRF normal fmr cg ds covmod periodic
        pyfftwmode seed entropy).domainsize)) :
    (mkSRF normal fmr cg ds covmod periodic pyfftwmode seed entropy).h.shape
      = squeezeVec (mkSRF normal fmr cg ds covmod periodic pyfftwmode
          seed entropy).domainsize
    ∧ (mkSRF normal fmr cg ds covmod periodic pyfftwmode
        seed entropy).h.data c
      = Real.sqrt (∑ i ∈ Finset.range (squeezeVec (mkSRF normal fmr cg ds
            covmod periodic pyfftwmode seed entropy).domainsize).length,
          ((min (c.getD i 0)
            ((squeezeVec (mkSRF normal fmr cg ds covmod periodic pyfftwmode
              seed entropy).domainsize).getD i 0 - c.getD i 0) : ℕ) : ℝ) ^ 2) := by
  have hsq : squeezeVec (mkSRF normal fmr cg ds covmod periodic pyfftwmode
      seed entropy).domainsize = paddedOf fmr ds covmod periodic :=
    squeezeVec_storedDS (paddedOf fmr ds covmod periodic)
  rw [hsq]
  exact ⟨rfl, rfl⟩

/-- Claim C1: the spectral standard-deviation array is the elementwise square
root of the elementwise magnitude of the forward DFT of the covariance array
Q divided by the element count of the padded grid; it has the padded shape,
no negative entries, and the square root is never applied to a negative
number. -/
theorem C1_spectral_stddev {κ : Type} (normal : ℕ → ℕ → ℝ) (fmr : κ → ℚ)
    (cg : κ → ℝ → ℝ) (ds : List ℕ) (covmod : κ) (periodic pyfftwmode : Bool)
    (seed : Option ℕ) (entropy : ℕ) (hpos : ∀ x ∈ ds, 0 < x) :
    (mkSRF normal fmr cg ds covmod periodic pyfftwmode seed entropy).sqrtFFTQ
      = mapArr Real.sqrt
          (sqrtArgArr cg covmod (paddedOf fmr ds covmod periodic))
    ∧ (∀ k, (sqrtArgArr cg covmod (paddedOf fmr ds covmod periodic)).data k
        = Complex.abs ((fftn (mapArr Complex.ofReal
            (mkSRF normal fmr cg ds covmod periodic pyfftwmode
              seed entropy).Q)).data k)
          / (npointsOf (paddedOf fmr ds covmod periodic) : ℝ))
    ∧ (mkSRF normal fmr cg ds covmod periodic pyfftwmode
        seed entropy).npoints = npointsOf (paddedOf fmr ds covmod periodic)
    ∧ (mkSRF normal fmr cg ds covmod periodic pyfftwmode
        seed entropy).sqrtFFTQ.shape = paddedOf fmr ds covmod periodic
    ∧ (∀ k, 0 ≤ (sqrtArgArr cg covmod (paddedOf fmr ds covmod
        periodic)).data k)
    ∧ (∀ k, 0 ≤ (mkSRF normal fmr cg ds covmod periodic pyfftwmode
        seed entropy).sqrtFFTQ.data k) := by
  refine ⟨rfl, fun k => rfl, rfl, rfl, fun k => ?_, fun k => ?_⟩
  · exact div_nonneg (Complex.abs.nonneg _) (Nat.cast_nonneg _)
  · exact Real.sqrt_nonneg _

/-- Claim C6: two generators built with identical configuration and an
identical explicit seed produce identical sequences of realizations when
their synthesis operations run in the same order, whatever system entropy
each process would otherwise have drawn. -/
theorem C6_determinism {κ : Type} (normal : ℕ → ℕ → ℝ) (fmr : κ → ℚ)
    (cg : κ → ℝ → ℝ) (ds : List ℕ) (covmod : κ) (periodic pyfftwmode : Bool)
    (s entropy₁ entropy₂ : ℕ) (ops : List Op) :
    runOps normal
      (mkSRF normal fmr cg ds covmod periodic pyfftwmode (some s) entropy₁) ops
    = runOps normal
      (mkSRF normal fmr cg ds covmod periodic pyfftwmode (some s) entropy₂)
        ops := rfl

/-- Claim C7: started from the same generator state, `simnew_real` returns
exactly field 0 (the real part) of what `simnew` would return, and leaves
the generator with the same draw counter and the same random-stream
position (both noise arrays are drawn). -/
theorem C7_simnew_real_refines_simnew {κ : Type} (normal : ℕ → ℕ → ℝ)
    (g : SRF κ) :
    (simnew_real normal g).1 = fieldOf 0 (simnew normal g).1
    ∧ (simnew_real normal g).2.rngPos = (simnew normal g).2.rngPos
    ∧ (simnew_real normal g).2.counter = (simnew normal g).2.counter := by
  exact ⟨rfl, rfl, rfl⟩

/-- Claim C8: every synthesis call increments the draw counter by exactly one
and advances the random stream by two padded-grid draws, and leaves every
other constructed field of the generator unchanged (the last-result slot
aside). -/
theorem C8_frame {κ : Type} (normal : ℕ → ℕ → ℝ) (g : SRF κ) (op : Op) :
    (runOp normal g op).2.counter = g.counter + 1
    ∧ (runOp normal g op).2.rngPos
        = g.rngPos + 2 * npointsOf g.sqrtFFTQ.shape
    ∧ (runOp normal g op).2.sqrtFFTQ = g.sqrtFFTQ
    ∧ (runOp normal g op).2.domainsize = g.domainsize
    ∧ (runOp normal g op).2.cutoff = g.cutoff
    ∧ (runOp normal g op).2.periodic = g.periodic
    ∧ (runOp normal g op).2.covmod = g.covmod
    ∧ (runOp normal g op).2.h = g.h
    ∧ (runOp normal g op).2.Q = g.Q
    ∧ (runOp normal g op).2.FFTQ = g.FFTQ
    ∧ (runOp normal g op).2.npoints = g.npoints
    ∧ (runOp normal g op).2.ndim = g.ndim
    ∧ (runOp normal g op).2.seed = g.seed
    ∧ (runOp normal g op).2.pyfftwmode = g.pyfftwmode
    ∧ (runOp normal g op).2.rngSeed = g.rngSeed := by
  cases op <;>
    refine ⟨rfl, ?_, rfl, rfl, rfl, rfl, rfl, rfl, rfl, rfl, rfl, rfl, rfl,
      rfl, rfl⟩ <;>
    · show g.rngPos + npointsOf g.sqrtFFTQ.shape + npointsOf g.sqrtFFTQ.shape
        = g.rngPos + 2 * npointsOf g.sqrtFFTQ.shape
      omega

/-- Claim C9: construction itself performs one dual-field draw: right after
the constructor returns, the draw counter is 1, the stream has advanced by
the two padded-grid noise draws, the last-result slot holds that first drawn
pair, and a subsequent call is the second draw. -/
theorem C9_construction_draws_once {κ : Type} (normal : ℕ → ℕ → ℝ)
    (fmr : κ → ℚ) (cg : κ → ℝ → ℝ) (ds : List ℕ) (covmod : κ)
    (periodic pyfftwmode : Bool) (seed : Option ℕ) (entropy : ℕ) :
    (mkSRF normal fmr cg ds covmod periodic pyfftwmode seed entropy).counter = 1
    ∧ (mkSRF normal fmr cg ds covmod periodic pyfftwmode seed entropy).rngPos
        = 2 * npointsOf (paddedOf fmr ds covmod periodic)
    ∧ (mkSRF normal fmr cg ds covmod periodic pyfftwmode seed entropy).Y
        = (simnew normal
            (mkSRF0 fmr cg ds covmod periodic pyfftwmode seed entropy)).1
    ∧ (simnew normal
        (mkSRF normal fmr cg ds covmod periodic pyfftwmode
          seed entropy)).2.counter = 2
    ∧ (simnew normal
        (mkSRF normal fmr cg ds covmod periodic pyfftwmode
          seed entropy)).2.rngPos
        = 4 * npointsOf (paddedOf fmr ds covmod periodic) := by
  refine ⟨rfl, ?_, rfl, rfl, ?_⟩
  · show 0 + npointsOf (paddedOf fmr ds covmod periodic)
        + npointsOf (paddedOf fmr ds covmod periodic)
      = 2 * npointsOf (paddedOf fmr ds covmod periodic)
    omega
  · show 0 + npointsOf (paddedOf fmr ds covmod periodic)
        + npointsOf (paddedOf fmr ds covmod periodic)
        + npointsOf (paddedOf fmr ds covmod periodic)
        + npointsOf (paddedOf fmr ds covmod periodic)
      = 4 * npointsOf (paddedOf fmr ds covmod periodic)
    omega

/-- Claim C2: shape law.  After any sequence of synthesis calls on a
generator, the next dual-field result is a stack of two fields each of the
requested shape, and the next single-field result has the requested shape,
for periodic and non-periodic configurations alike. -/
theorem C2_shape_law {κ : Type} (normal : ℕ → ℕ → ℝ) (fmr : κ → ℚ)
    (cg : κ → ℝ → ℝ) (ds : List ℕ) (covmod : κ) (periodic pyfftwmode : Bool)
    (seed : Option ℕ) (entropy : ℕ) (hpos : ∀ x ∈ ds, 0 < x) (ops : List Op) :
    (simnew normal (runOps normal (mkSRF normal fmr cg ds covmod periodic
        pyfftwmode seed entropy) ops).2).1.shape = 2 :: ds
    ∧ (fieldOf 0 (simnew normal (runOps normal (mkSRF normal fmr cg ds covmod
        periodic pyfftwmode seed entropy) ops).2).1).shape = ds
    ∧ (fieldOf 1 (simnew normal (runOps normal (mkSRF normal fmr cg ds covmod
        periodic pyfftwmode seed entropy) ops).2).1).shape = ds
    ∧ (simnew_real normal (runOps normal (mkSRF normal fmr cg ds covmod
        periodic pyfftwmode seed entropy) ops).2).1.shape = ds := by
  obtain ⟨h1, h2, h3, h4, -, -⟩ := runOps_frame normal ops
    (mkSRF normal fmr cg ds covmod periodic pyfftwmode seed entropy)
  have hsqrt : (mkSRF normal fmr cg ds covmod periodic pyfftwmode
      seed entropy).sqrtFFTQ.shape = paddedOf fmr ds covmod periodic := rfl
  have hdom : (mkSRF normal fmr cg ds covmod periodic pyfftwmode
      seed entropy).domainsize
      = storedDS (paddedOf fmr ds covmod periodic) := rfl
  have hcut : (mkSRF normal fmr cg ds covmod periodic pyfftwmode
      seed entropy).cutoff = cutoffOf fmr ds covmod periodic := rfl
  have hper : (mkSRF normal fmr cg ds covmod periodic pyfftwmode
      seed entropy).periodic = periodic := rfl
  have key : (if (runOps normal (mkSRF normal fmr cg ds covmod periodic
      pyfftwmode seed entropy) ops).2.periodic
      then (runOps normal (mkSRF normal fmr cg ds covmod periodic pyfftwmode
        seed entropy) ops).2.sqrtFFTQ.shape
      else cropSizes (runOps normal (mkSRF normal fmr cg ds covmod periodic
        pyfftwmode seed entropy) ops).2) = ds := by
    rw [h4, hper]
    cases periodic
    · simp only [Bool.false_eq_true, if_false]
      exact cropSizes_of_fields _ fmr ds covmod false (h2.trans hdom)
        (h3.trans hcut)
    · simp only [if_true]
      rw [h1, hsqrt, paddedOf_periodic]
  refine ⟨?_, ?_, ?_, ?_⟩
  · rw [simnew_fst_shape, key]
  · show (simnew normal _).1.shape.tail = ds
    rw [simnew_fst_shape, key]
    rfl
  · show (simnew normal _).1.shape.tail = ds
    rw [simnew_fst_shape, key]
    rfl
  · rw [simnew_real_fst_shape, key]

/-- Claim C10: the stored domainsize attribute holds the padded size (the
requested extents plus the cutoff) carried with one trailing singleton axis
per dimension, not the caller's requested extents; the requested extents are
recovered as the squeezed value minus the cutoff, which is exactly the crop
target recomputed on every synthesis call. -/
theorem C10_stored_domainsize {κ : Type} (normal : ℕ → ℕ → ℝ) (fmr : κ → ℚ)
    (cg : κ → ℝ → ℝ) (ds : List ℕ) (covmod : κ) (periodic pyfftwmode : Bool)
    (seed : Option ℕ) (entropy : ℕ) (hpos : ∀ x ∈ ds, 0 < x) :
    (mkSRF normal fmr cg ds covmod periodic pyfftwmode
        seed entropy).domainsize.shape
      = ds.length :: List.replicate ds.length 1
    ∧ squeezeVec (mkSRF normal fmr cg ds covmod periodic pyfftwmode
        seed entropy).domainsize
      = List.zipWith (fun a b => a + b) ds
          (mkSRF normal fmr cg ds covmod periodic pyfftwmode
            seed entropy).cutoff
    ∧ List.zipWith (fun a b => a - b)
        (squeezeVec (mkSRF normal fmr cg ds covmod periodic pyfftwmode
          seed entropy).domainsize)
        (mkSRF normal fmr cg ds covmod periodic pyfftwmode
          seed entropy).cutoff = ds
    ∧ cropSizes (mkSRF normal fmr cg ds covmod periodic pyfftwmode
        seed entropy) = ds
    ∧ (periodic = false → 0 < fmr covmod → ds ≠ [] →
        squeezeVec (mkSRF normal fmr cg ds covmod periodic pyfftwmode
          seed entropy).domainsize ≠ ds) := by
  have hdom : (mkSRF normal fmr cg ds covmod periodic pyfftwmode
      seed entropy).domainsize
      = storedDS (paddedOf fmr ds covmod periodic) := rfl
  have hcut : (mkSRF normal fmr cg ds covmod periodic pyfftwmode
      seed entropy).cutoff = cutoffOf fmr ds covmod periodic := rfl
  have hsq : squeezeVec (mkSRF normal fmr cg ds covmod periodic pyfftwmode
      seed entropy).domainsize = paddedOf fmr ds covmod periodic := by
    rw [hdom, squeezeVec_storedDS]
  refine ⟨?_, ?_, ?_, ?_, ?_⟩
  · rw [hdom]
    show (paddedOf fmr ds covmod periodic).length
        :: List.replicate (paddedOf fmr ds covmod periodic).length 1
      = ds.length :: List.replicate ds.length 1
    rw [paddedOf_length]
  · rw [hsq, hcut]
    rfl
  · rw [hsq, hcut, paddedOf]
    exact zipWith_sub_zipWith_add ds _ (cutoffOf_length fmr ds covmod periodic)
  · exact cropSizes_of_fields _ fmr ds covmod periodic hdom hcut
  · intro hperiod hrange hne heq
    subst hperiod
    obtain ⟨d, tl, rfl⟩ := List.exists_cons_of_ne_nil hne
    rw [hsq] at heq
    have hlen : (cutoffList (d :: tl) (fmr covmod)).length
        = (d :: tl).length := by simp [cutoffList]
    have h0 : (paddedOf fmr (d :: tl) covmod false).getD 0 0
        = d + (cutoffList (d :: tl) (fmr covmod)).getD 0 0 := by
      show (List.zipWith (fun a b => a + b) (d :: tl)
          (cutoffList (d :: tl) (fmr covmod))).getD 0 0 = _
      exact getD_zipWith _ _ _ 0 (by simp) (by rw [hlen]; simp)
    have hc0 : (cutoffList (d :: tl) (fmr covmod)).getD 0 0
        = roundUp8 ((d : ℚ) + fmr covmod) - d := by
      rw [cutoffList]
      exact getD_map_nat _ _ 0 (by simp)
    have hge : (d : ℚ) + fmr covmod
        ≤ (roundUp8 ((d : ℚ) + fmr covmod) : ℚ) :=
      roundUp8_ge _ (by positivity)
    have hgt : d < roundUp8 ((d : ℚ) + fmr covmod) := by
      have : (d : ℚ) < (roundUp8 ((d : ℚ) + fmr covmod) : ℚ) := by linarith
      exact_mod_cast this
    have : (paddedOf fmr (d :: tl) covmod false).getD 0 0 = d := by
      rw [heq]
      rfl
    omega

/-- Witness for C1: a concrete periodic 1-D configuration with positive
extent; the spectral standard deviation at the origin is non-negative. -/
theorem C1_spectral_stddev_witness :
    0 ≤ (mkSRF (fun _ _ => (0 : ℝ)) (fun _ : ℕ => (2 : ℚ))
        (fun _ _ => (0 : ℝ)) [2] 0 true false none 0).sqrtFFTQ.data [0] :=
  (C1_spectral_stddev (fun _ _ => (0 : ℝ)) (fun _ : ℕ => (2 : ℚ))
    (fun _ _ => (0 : ℝ)) [2] 0 true false none 0
    (by decide)).2.2.2.2.2 [0]

/-- Witness for C2: a concrete non-periodic configuration; the single-field
result right after construction has the requested shape. -/
theorem C2_shape_law_witness :
    (simnew_real (fun _ _ => (0 : ℝ))
      (runOps (fun _ _ => (0 : ℝ))
        (mkSRF (fun _ _ => (0 : ℝ)) (fun _ : ℕ => (2 : ℚ))
          (fun _ _ => (0 : ℝ)) [2] 0 false false none 0) []).2).1.shape
      = [2] :=
  (C2_shape_law (fun _ _ => (0 : ℝ)) (fun _ : ℕ => (2 : ℚ))
    (fun _ _ => (0 : ℝ)) [2] 0 false false none 0 (by decide) []).2.2.2

/-- Witness for C3: the origin of a concrete periodic 1-D grid is a valid
coordinate and the lag array there matches the wrap-around norm formula. -/
theorem C3_lag_distance_witness :
    (mkSRF (fun _ _ => (0 : ℝ)) (fun _ : ℕ => (2 : ℚ))
        (fun _ _ => (0 : ℝ)) [1] 0 true false none 0).h.data [0]
      = Real.sqrt (∑ i ∈ Finset.range (squeezeVec (mkSRF (fun _ _ => (0 : ℝ))
            (fun _ : ℕ => (2 : ℚ)) (fun _ _ => (0 : ℝ)) [1] 0 true false
            none 0).domainsize).length,
          ((min (([0] : List ℕ).getD i 0)
            ((squeezeVec (mkSRF (fun _ _ => (0 : ℝ)) (fun _ : ℕ => (2 : ℚ))
              (fun _ _ => (0 : ℝ)) [1] 0 true false none 0).domainsize).getD
                i 0 - ([0] : List ℕ).getD i 0) : ℕ) : ℝ) ^ 2) :=
  (C3_lag_distance (fun _ _ => (0 : ℝ)) (fun _ : ℕ => (2 : ℚ))
    (fun _ _ => (0 : ℝ)) [1] 0 true false none 0 [0]
    (show validIdx [0] [1] by decide)).2

/-- Witness for C4: a concrete non-periodic configuration with range 2; the
first padded extent is a multiple of 8. -/
theorem C4_padding_arithmetic_witness :
    8 ∣ (squeezeVec (mkSRF (fun _ _ => (0 : ℝ)) (fun _ : ℕ => (2 : ℚ))
        (fun _ _ => (0 : ℝ)) [3, 5] 0 false false none 0).domainsize).getD
          0 0 :=
  (C4_padding_arithmetic (fun _ _ => (0 : ℝ)) (fun _ : ℕ => (2 : ℚ))
    (fun _ _ => (0 : ℝ)) [3, 5] 0 false none 0
    (by norm_num) (by decide) 0 (by decide)).2.2.1

/-- Witness for C10: in a concrete non-periodic configuration the stored
domainsize attribute, squeezed, differs from the requested extents. -/
theorem C10_stored_domainsize_witness :
    squeezeVec (mkSRF (fun _ _ => (0 : ℝ)) (fun _ : ℕ => (2 : ℚ))
        (fun _ _ => (0 : ℝ)) [2] 0 false false none 0).domainsize ≠ [2] :=
  (C10_stored_domainsize (fun _ _ => (0 : ℝ)) (fun _ : ℕ => (2 : ℚ))
    (fun _ _ => (0 : ℝ)) [2] 0 false false none 0
    (by decide)).2.2.2.2 rfl (by norm_num) (by decide)

end Spectralsim
